import Mathlib

/-!
# object_map_utils: boundary reconstruction and polygon rasterization

A shallow embedding of `object_map_utils.cpp` (namespace `object_map`).

* Identifiers are the 32-bit `int` fields of the vector-map messages, modelled as `Int`.
* Scalars (`double`, `float`) are modelled as rationals; a `NaN` grid cell is `none`. Storing a
  value into a `float` cell or pixel goes through the rounding `RasterOps.toFloat`, which is a
  parameter.
* The `while` loop of `SearchAreaPoints` has no termination measure, so the embedding counts
  loop iterations with a fuel argument and returns `none` when the fuel is exhausted.
-/

namespace object_map

/-! ## Vector map records -/

/-- A `vector_map_msgs::Point`: identifier and coordinates. -/
structure Point where
  pid : Int
  x : ℚ
  y : ℚ
  z : ℚ
deriving DecidableEq, Repr

/-- A `vector_map_msgs::Line`. -/
structure Line where
  lid : Int
  bpid : Int
  fpid : Int
  blid : Int
  flid : Int
deriving DecidableEq, Repr

/-- A `vector_map_msgs::Area`. -/
structure Area where
  aid : Int
  slid : Int
deriving DecidableEq, Repr

/-- A `vector_map_msgs::WayArea`. -/
structure WayArea where
  waid : Int
  aid : Int
deriving DecidableEq, Repr

/-- A `geometry_msgs::Point`. -/
structure GeomPoint where
  x : ℚ
  y : ℚ
  z : ℚ
deriving DecidableEq, Repr

/-- The map graph: one table per record kind, in enumeration order. -/
structure VectorMap where
  points : List Point
  lines : List Line
  areas : List Area
  wayAreas : List WayArea
deriving Repr

/-- Modelled from the spec: `VectorMap::findByKey` is declared outside this file. It returns
the stored record with the given id, or the zero record (the sentinel) when there is none;
id `0` never resolves to a stored record. -/
def findByKey {α : Type} (id : α → Int) (zero : α) (table : List α) (key : Int) : α :=
  match table.find? (fun r => id r == key && id r != 0) with
  | some r => r
  | none => zero

/-- Lookup `findByKey(Key<Point>(key))`. -/
def VectorMap.findPoint (vm : VectorMap) (key : Int) : Point :=
  findByKey Point.pid ⟨0, 0, 0, 0⟩ vm.points key

/-- Lookup `findByKey(Key<Line>(key))`. -/
def VectorMap.findLine (vm : VectorMap) (key : Int) : Line :=
  findByKey Line.lid ⟨0, 0, 0, 0, 0⟩ vm.lines key

/-- Lookup `findByKey(Key<Area>(key))`. -/
def VectorMap.findArea (vm : VectorMap) (key : Int) : Area :=
  findByKey Area.aid ⟨0, 0⟩ vm.areas key

/-- Modelled from the spec: `VectorMap::findByFilter` is declared outside this file. It
returns the stored WayArea records satisfying the predicate, in enumeration order. -/
def VectorMap.findByFilter (vm : VectorMap) (filter : WayArea → Bool) : List WayArea :=
  vm.wayAreas.filter filter

/-! ## Boundary reconstruction -/

/-- The line walk of `SearchAreaPoints` (the `while (line.flid != 0)` loop followed by the
handling of the final line). `conv` is `vector_map::convertPointToGeomPoint`, which is
declared outside this file. `fuel` bounds the number of loop iterations. -/
def searchLines (conv : Point → GeomPoint) (vm : VectorMap) :
    Nat → Line → List GeomPoint → Option (List GeomPoint)
  | fuel, line, area_points =>
    if line.flid != 0 then
      match fuel with
      | 0 => none
      | fuel + 1 =>
        let bp := vm.findPoint line.bpid
        if bp.pid == 0 then some []
        else
          let fp := vm.findPoint line.fpid
          if fp.pid == 0 then some []
          else
            let area_points := area_points ++ [conv bp, conv fp]
            let line := vm.findLine line.flid
            if line.lid == 0 then some []
            else searchLines conv vm fuel line area_points
    else
      let bp := vm.findPoint line.bpid
      let fp := vm.findPoint line.fpid
      if bp.pid == 0 || fp.pid == 0 then some []
      else some (area_points ++ [conv bp, conv fp])

/-- Embedding of `SearchAreaPoints`: `none` means the walk did not finish within `fuel` loop
iterations, `some pts` is the returned vector. -/
def SearchAreaPoints (conv : Point → GeomPoint) (fuel : Nat) (in_area : Area)
    (in_vectormap : VectorMap) : Option (List GeomPoint) :=
  if in_area.aid == 0 then some []
  else
    let line := in_vectormap.findLine in_area.slid
    if line.lid == 0 || line.blid != 0 then some []
    else searchLines conv in_vectormap fuel line []

/-- Embedding of `LoadRoadAreasFromVectorMap` on the subscribed map `vmap`;
`out_area_points` is the caller's vector, the result is its value on return. -/
def LoadRoadAreasFromVectorMap (conv : Point → GeomPoint) (fuel : Nat) (vmap : VectorMap)
    (out_area_points : List (List GeomPoint)) : Option (List (List GeomPoint)) :=
  let way_areas := vmap.findByFilter (fun _ => true)
  if way_areas.isEmpty then some out_area_points
  else
    way_areas.foldlM
      (fun out way_area =>
        (SearchAreaPoints conv fuel (vmap.findArea way_area.aid) vmap).map
          (fun pts => out ++ [pts]))
      out_area_points

/-! ## Specification-side descriptions of the line chain -/

/-- The `i`-th line reached from `line` by following `flid` links. -/
def lineFrom (vm : VectorMap) : Line → Nat → Line
  | line, 0 => line
  | line, i + 1 => lineFrom vm (vm.findLine line.flid) i

/-- The `i`-th line of the chain of `area`: `L0` is found via `slid`. -/
def lineAt (vm : VectorMap) (area : Area) (i : Nat) : Line :=
  lineFrom vm (vm.findLine area.slid) i

/-- Begin point of a line, as a geometry point. -/
def bpOf (conv : Point → GeomPoint) (vm : VectorMap) (l : Line) : GeomPoint :=
  conv (vm.findPoint l.bpid)

/-- Forward point of a line, as a geometry point. -/
def fpOf (conv : Point → GeomPoint) (vm : VectorMap) (l : Line) : GeomPoint :=
  conv (vm.findPoint l.fpid)

/-- Both point ids of a line resolve to a stored point. -/
def pointsOk (vm : VectorMap) (l : Line) : Prop :=
  (vm.findPoint l.bpid).pid ≠ 0 ∧ (vm.findPoint l.fpid).pid ≠ 0

instance (vm : VectorMap) (l : Line) : Decidable (pointsOk vm l) := by
  unfold pointsOk; infer_instance

/-- The points `bp, fp` of the lines `line = L0, …, Ln`, in chain order. -/
def chainFrom (conv : Point → GeomPoint) (vm : VectorMap) : Line → Nat → List GeomPoint
  | line, 0 => [bpOf conv vm line, fpOf conv vm line]
  | line, n + 1 =>
    [bpOf conv vm line, fpOf conv vm line] ++ chainFrom conv vm (vm.findLine line.flid) n

/-! ## Rigid transforms and grid geometry -/

/-- A `tf::Transform`: a 3×3 basis (row by row) and an origin. -/
structure Transform where
  xx : ℚ
  xy : ℚ
  xz : ℚ
  yx : ℚ
  yy : ℚ
  yz : ℚ
  zx : ℚ
  zy : ℚ
  zz : ℚ
  ox : ℚ
  oy : ℚ
  oz : ℚ

/-- The identity transform. -/
def Transform.identity : Transform :=
  ⟨1, 0, 0, 0, 1, 0, 0, 0, 1, 0, 0, 0⟩

/-- Embedding of `TransformPoint`: `in_tf * tf_point`, basis times point plus origin. -/
def TransformPoint (in_point : GeomPoint) (in_tf : Transform) : GeomPoint :=
  { x := in_tf.xx * in_point.x + in_tf.xy * in_point.y + in_tf.xz * in_point.z + in_tf.ox
    y := in_tf.yx * in_point.x + in_tf.yy * in_point.y + in_tf.yz * in_point.z + in_tf.oy
    z := in_tf.zx * in_point.x + in_tf.zy * in_point.y + in_tf.zz * in_point.z + in_tf.oz }

/-- A `cv::Point` (integer pixel coordinates: `x` is the column, `y` the row). -/
structure CvPoint where
  x : Int
  y : Int
deriving DecidableEq, Repr

/-- Conversion `double → int` performed by the `cv::Point(cv_x, cv_y)` constructor:
truncation toward zero. -/
def truncate (q : ℚ) : Int :=
  Int.tdiv q.num q.den

/-- Layer data (`grid_map::Matrix`): cell values by index, `none` for `NaN`. -/
abbrev Matrix := Nat → Nat → Option ℚ

/-- An image (`cv::Mat`) with pixels of type `α`, addressed by row and column. -/
abbrev Image (α : Type) := Nat → Nat → α

/-- The grid map collaborator: geometry and named layers. -/
structure GridMap where
  /-- Field `getLength()`: side lengths along x and y. -/
  length : ℚ × ℚ
  /-- Field `getResolution()`. -/
  resolution : ℚ
  /-- Field `getPosition()`. -/
  position : ℚ × ℚ
  /-- Field `getSize()`: rows and columns. -/
  size : Nat × Nat
  /-- The layers by name. -/
  layers : String → Option Matrix

/-- Replace (or insert) the data of one layer. -/
def GridMap.setLayer (g : GridMap) (layer : String) (data : Matrix) : GridMap :=
  { g with layers := fun n => if n = layer then some data else g.layers n }

/-- Method `exists(layer)`. -/
def GridMap.exists (g : GridMap) (layer : String) : Bool :=
  (g.layers layer).isSome

/-- Method `add(layer)`: a layer of `NaN` cells. -/
def GridMap.add (g : GridMap) (layer : String) : GridMap :=
  g.setLayer layer (fun _ _ => none)

/-- Statement `grid[layer].setConstant(value)`, for a value already rounded to `float`. -/
def GridMap.setConstant (g : GridMap) (layer : String) (value : ℚ) : GridMap :=
  g.setLayer layer (fun _ _ => some value)

/-- The raster collaborators that are not part of this file, taken as parameters. -/
structure RasterOps where
  /-- The `float` a number is rounded to when it is stored in a `float` cell or pixel
  (the conversions `int → float` and `double → float`). -/
  toFloat : ℚ → ℚ
  /-- The image written by `GridMapCvConverter::toImage<unsigned char, 1>` for a layer of a
  grid map and a value range. -/
  toImage8 : GridMap → String → Int → Int → Image Nat
  /-- The image written by `GridMapCvConverter::toImage<float, 1>`. -/
  toImageF : GridMap → String → Int → Int → Image ℚ
  /-- The layer data written by `GridMapCvConverter::addLayerFromImage<unsigned char, 1>`
  from an image, for a grid map and a value range. -/
  fromImage8 : Image Nat → GridMap → Int → Int → Matrix
  /-- The 8-bit pixel stored for `cv::Scalar(colour)`. -/
  colour8 : Int → Nat
  /-- Whether `cv::fillConvexPoly` paints the pixel at a row and column of an image with the
  given numbers of rows and columns, for the given vertices. -/
  covers : Nat × Nat → List CvPoint → Nat → Nat → Bool

/-- Call `cv::fillConvexPoly(img, pts, npts, colour)`: painted pixels take the colour, the
others are kept. -/
def fillConvexPoly {α : Type} (ops : RasterOps) (size : Nat × Nat) (img : Image α)
    (pts : List CvPoint) (colour : α) : Image α :=
  fun r c => if ops.covers size pts r c then colour else img r c

/-- Call `image.setTo(value)`: every pixel takes the value. -/
def setTo {α : Type} (_image : Image α) (value : α) : Image α :=
  fun _ _ => value

/-- Call `GridMapCvConverter::addLayerFromImage<unsigned char, 1>`: only the named layer is
written. -/
def addLayerFromImage (ops : RasterOps) (image : Image Nat) (layer : String) (g : GridMap)
    (lo hi : Int) : GridMap :=
  g.setLayer layer (ops.fromImage8 image g lo hi)

/-- The local `origin_x_offset`. -/
def origin_x_offset (g : GridMap) : ℚ :=
  g.length.1 / 2 - g.position.1

/-- The local `origin_y_offset`. -/
def origin_y_offset (g : GridMap) : ℚ :=
  g.length.2 / 2 - g.position.2

/-- The local `cv_x` (image column) of a transformed point. -/
def cv_x (g : GridMap) (tf_point : GeomPoint) : ℚ :=
  (g.length.2 - origin_y_offset g - tf_point.y) / g.resolution

/-- The local `cv_y` (image row) of a transformed point. -/
def cv_y (g : GridMap) (tf_point : GeomPoint) : ℚ :=
  (g.length.1 - origin_x_offset g - tf_point.x) / g.resolution

/-- The cell `cv::Point(cv_x, cv_y)` of a world point `p` under the transform `tf`. -/
def cellOf (g : GridMap) (tf : Transform) (p : GeomPoint) : CvPoint :=
  let tf_point := TransformPoint p tf
  ⟨truncate (cv_x g tf_point), truncate (cv_y g tf_point)⟩

/-- Embedding of `FillPolygonAreas`. `tf` is the transform returned by `FindTransform`. -/
def FillPolygonAreas (ops : RasterOps) (tf : Transform) (out_grid_map : GridMap)
    (in_area_points : List (List GeomPoint)) (in_grid_layer_name : String)
    (in_layer_background_value in_layer_min_value in_fill_color in_layer_max_value : Int) :
    GridMap :=
  let out_grid_map :=
    if !out_grid_map.exists in_grid_layer_name then out_grid_map.add in_grid_layer_name
    else out_grid_map
  let out_grid_map :=
    out_grid_map.setConstant in_grid_layer_name (ops.toFloat in_layer_background_value)
  let original_image :=
    ops.toImage8 out_grid_map in_grid_layer_name in_layer_min_value in_layer_max_value
  let filled_image := original_image
  let filled_image :=
    in_area_points.foldl
      (fun filled_image points =>
        let cv_points := points.map (cellOf out_grid_map tf)
        fillConvexPoly ops out_grid_map.size filled_image cv_points (ops.colour8 in_fill_color))
      filled_image
  addLayerFromImage ops filled_image in_grid_layer_name out_grid_map in_layer_min_value
    in_layer_max_value

/-- Embedding of `addLayerFromImageWithoutNormValues`: the layer is added anew and every
cell of the grid's index space receives the image value at the same index. -/
def addLayerFromImageWithoutNormValues (image : Image ℚ) (in_grid_layer_name : String)
    (grid_map : GridMap) : GridMap :=
  let grid_map := grid_map.add in_grid_layer_name
  let data : Matrix := fun _ _ => none
  grid_map.setLayer in_grid_layer_name
    (fun r c => if r < grid_map.size.1 ∧ c < grid_map.size.2 then some (image r c) else data r c)

/-- The inner loop of `FillPolygonLaneAreas` over the points of one polygon: the collected
`cv_points` and the final value of `height` (initially `0`). -/
def lanePolygon (g : GridMap) (tf : Transform) (points : List GeomPoint) :
    List CvPoint × ℚ :=
  points.foldl
    (fun (st : List CvPoint × ℚ) p =>
      let tf_point := TransformPoint p tf
      (st.1 ++ [⟨truncate (cv_x g tf_point), truncate (cv_y g tf_point)⟩], tf_point.z))
    ([], 0)

/-- Embedding of `FillPolygonLaneAreas`. `tf` is the transform returned by `FindTransform`.
The image is `CV_32FC1` and the layer holds `float` cells: the background (`int`) and the
`height` passed to each fill (`double`) are stored rounded to `float`. -/
def FillPolygonLaneAreas (ops : RasterOps) (tf : Transform) (out_grid_map : GridMap)
    (in_area_points : List (List GeomPoint)) (in_grid_layer_name : String)
    (in_layer_background_value in_layer_min_value in_layer_max_value : Int) : GridMap :=
  let out_grid_map :=
    if !out_grid_map.exists in_grid_layer_name then out_grid_map.add in_grid_layer_name
    else out_grid_map
  let out_grid_map :=
    out_grid_map.setConstant in_grid_layer_name (ops.toFloat in_layer_background_value)
  let original_image :=
    ops.toImageF out_grid_map in_grid_layer_name in_layer_min_value in_layer_max_value
  let original_image := setTo original_image (ops.toFloat in_layer_background_value)
  let filled_image := original_image
  let filled_image :=
    in_area_points.foldl
      (fun filled_image points =>
        let poly := lanePolygon out_grid_map tf points
        fillConvexPoly ops out_grid_map.size filled_image poly.1 (ops.toFloat poly.2))
      filled_image
  addLayerFromImageWithoutNormValues filled_image in_grid_layer_name out_grid_map

/-! ## Concrete map graphs used to exercise the embedding -/

/-- A conversion keeping the three coordinates of a stored point. -/
def keepCoords (p : Point) : GeomPoint :=
  ⟨p.x, p.y, p.z⟩

/-- Four corner points of a unit square. -/
def squarePoints : List Point :=
  [⟨1, 0, 0, 0⟩, ⟨2, 1, 0, 0⟩, ⟨3, 1, 1, 0⟩, ⟨4, 0, 1, 0⟩]

/-- An open chain of three lines `1 → 2 → 3` over the square's corners. Area `2` starts at
line `2`, which has a backward link; WayArea `3` names an area `9` that is not stored. -/
def chainMap : VectorMap :=
  { points := squarePoints
    lines := [⟨1, 1, 2, 0, 2⟩, ⟨2, 2, 3, 1, 3⟩, ⟨3, 3, 4, 2, 0⟩]
    areas := [⟨1, 1⟩, ⟨2, 2⟩]
    wayAreas := [⟨1, 1⟩, ⟨2, 2⟩, ⟨3, 9⟩, ⟨4, 1⟩] }

/-- The area of `chainMap` starting at line `1`. -/
def chainArea : Area :=
  ⟨1, 1⟩

/-- A map whose only line is both first (`blid = 0`) and last (`flid = 0`). -/
def singleLineMap : VectorMap :=
  { points := squarePoints
    lines := [⟨1, 1, 2, 0, 0⟩]
    areas := [⟨1, 1⟩]
    wayAreas := [⟨1, 1⟩] }

/-- A map whose second line refers to a forward point `7` that is not stored. -/
def brokenPointMap : VectorMap :=
  { points := squarePoints
    lines := [⟨1, 1, 2, 0, 2⟩, ⟨2, 2, 7, 1, 0⟩]
    areas := [⟨1, 1⟩]
    wayAreas := [⟨1, 1⟩] }

/-- A map whose second line refers to a forward line `5` that is not stored. -/
def brokenLineMap : VectorMap :=
  { points := squarePoints
    lines := [⟨1, 1, 2, 0, 2⟩, ⟨2, 2, 3, 1, 5⟩]
    areas := [⟨1, 1⟩]
    wayAreas := [⟨1, 1⟩] }

/-- The four sides of the square as a closed ring `1 → 2 → 3 → 4 → 1 → …`: line `1` is a
legitimate start (`blid = 0`), every line and point resolves, and no line has `flid = 0`. -/
def ringMap : VectorMap :=
  { points := squarePoints
    lines := [⟨1, 1, 2, 0, 2⟩, ⟨2, 2, 3, 1, 3⟩, ⟨3, 3, 4, 2, 4⟩, ⟨4, 4, 1, 3, 1⟩]
    areas := [⟨1, 1⟩]
    wayAreas := [⟨1, 1⟩] }

/-- The value of a cell of a named layer (`none` for `NaN` or a missing layer). -/
def cellValue (g : GridMap) (layer : String) (r c : Nat) : Option ℚ :=
  match g.layers layer with
  | some data => data r c
  | none => none

/-- A 4 m × 4 m grid of 4 × 4 cells centred on the world origin, with no layer yet. -/
def demoGrid : GridMap :=
  { length := (4, 4)
    resolution := 1
    position := (0, 0)
    size := (4, 4)
    layers := fun _ => none }

/-- A coarse stand-in for the rounding to `float`: round down to a multiple of `1/8`. -/
def roundToEighth (q : ℚ) : ℚ :=
  ((Int.fdiv (q.num * 8) q.den : Int) : ℚ) / 8

/-- Stand-ins for the raster collaborators: stored values are rounded by `roundToEighth`,
values are clamped to `0..255` on export and read back unchanged, and a fill paints exactly
the pixels of the polygon's vertices. -/
def demoOps : RasterOps :=
  { toFloat := roundToEighth
    toImage8 := fun g layer _ _ r c =>
      match cellValue g layer r c with
      | some v => (max 0 (min 255 (truncate v))).toNat
      | none => 0
    toImageF := fun g layer _ _ r c =>
      match cellValue g layer r c with
      | some v => v
      | none => 0
    fromImage8 := fun image _ _ _ r c => some (image r c)
    colour8 := fun colour => (max 0 (min 255 colour)).toNat
    covers := fun _ pts r c => pts.any (fun p => p.x == (c : Int) && p.y == (r : Int)) }

/-- A triangle whose last point lies at height 3.6, which `roundToEighth` stores as 3.5. -/
def demoTriangle : List GeomPoint :=
  [⟨1, 1, 0⟩, ⟨1, -1, 0⟩, ⟨-1, -1, 18 / 5⟩]

/-! # Theorems -/

/-! ## Lemmas on the lookup model -/

theorem findByKey_zero {α : Type} (id : α → Int) (zero : α) (table : List α) :
    findByKey id zero table 0 = zero := by
  unfold findByKey
  have h : table.find? (fun r => id r == 0 && id r != 0) = none := by
    rw [List.find?_eq_none]
    intro x _
    by_cases hx : id x = 0 <;> simp [hx]
  rw [h]

theorem findLine_zero (vm : VectorMap) : vm.findLine 0 = ⟨0, 0, 0, 0, 0⟩ :=
  findByKey_zero _ _ _

theorem lineFrom_succ (vm : VectorMap) (line : Line) (i : Nat) :
    lineFrom vm line (i + 1) = vm.findLine (lineFrom vm line i).flid := by
  induction i generalizing line with
  | zero => rfl
  | succ i ih =>
    show lineFrom vm (vm.findLine line.flid) (i + 1) = _
    rw [ih]
    rfl

/-! ## Lemmas on the line walk -/

theorem searchLines_last (conv : Point → GeomPoint) (vm : VectorMap) (fuel : Nat) (line : Line)
    (acc : List GeomPoint) (hf : line.flid = 0) :
    searchLines conv vm fuel line acc =
      if (vm.findPoint line.bpid).pid = 0 ∨ (vm.findPoint line.fpid).pid = 0 then some []
      else some (acc ++ [conv (vm.findPoint line.bpid), conv (vm.findPoint line.fpid)]) := by
  unfold searchLines
  simp [hf]

theorem searchLines_step (conv : Point → GeomPoint) (vm : VectorMap) (fuel : Nat) (line : Line)
    (acc : List GeomPoint) (hf : line.flid ≠ 0) :
    searchLines conv vm (fuel + 1) line acc =
      if (vm.findPoint line.bpid).pid = 0 then some []
      else if (vm.findPoint line.fpid).pid = 0 then some []
      else if (vm.findLine line.flid).lid = 0 then some []
      else searchLines conv vm fuel (vm.findLine line.flid)
        (acc ++ [conv (vm.findPoint line.bpid), conv (vm.findPoint line.fpid)]) := by
  rw [searchLines]
  simp [hf]

theorem searchLines_out_of_fuel (conv : Point → GeomPoint) (vm : VectorMap) (line : Line)
    (acc : List GeomPoint) (hf : line.flid ≠ 0) :
    searchLines conv vm 0 line acc = none := by
  rw [searchLines]
  simp [hf]

/-- A visited line with an unresolved point id makes the walk return the empty vector. -/
theorem searchLines_bad_point (conv : Point → GeomPoint) (vm : VectorMap) (k : Nat) :
    ∀ (line : Line) (acc : List GeomPoint) (fuel : Nat),
      (∀ i, i < k → (lineFrom vm line i).flid ≠ 0) →
      ¬ pointsOk vm (lineFrom vm line k) → k < fuel →
      searchLines conv vm fuel line acc = some [] := by
  induction k with
  | zero =>
    intro line acc fuel _ hbad hfuel
    have hbad' : (vm.findPoint line.bpid).pid = 0 ∨ (vm.findPoint line.fpid).pid = 0 := by
      unfold pointsOk lineFrom at hbad
      by_cases hb : (vm.findPoint line.bpid).pid = 0
      · exact Or.inl hb
      · exact Or.inr (by_contra fun hfp => hbad ⟨hb, hfp⟩)
    by_cases hf : line.flid = 0
    · rw [searchLines_last conv vm fuel line acc hf, if_pos hbad']
    · obtain ⟨f, rfl⟩ : ∃ f, fuel = f + 1 := ⟨fuel - 1, by omega⟩
      rw [searchLines_step conv vm f line acc hf]
      rcases hbad' with hb | hfp
      · rw [if_pos hb]
      · by_cases hb : (vm.findPoint line.bpid).pid = 0
        · rw [if_pos hb]
        · rw [if_neg hb, if_pos hfp]
  | succ k ih =>
    intro line acc fuel hreach hbad hfuel
    have hf : line.flid ≠ 0 := hreach 0 (Nat.succ_pos k)
    obtain ⟨f, rfl⟩ : ∃ f, fuel = f + 1 := ⟨fuel - 1, by omega⟩
    rw [searchLines_step conv vm f line acc hf]
    split_ifs
    · rfl
    · rfl
    · rfl
    · exact ih (vm.findLine line.flid) _ f (fun i hi => hreach (i + 1) (by omega)) hbad
        (by omega)

/-- A followed `flid` that names no stored line makes the walk return the empty vector. -/
theorem searchLines_missing_line (conv : Point → GeomPoint) (vm : VectorMap) (k : Nat) :
    ∀ (line : Line) (acc : List GeomPoint) (fuel : Nat),
      (∀ i, i ≤ k → (lineFrom vm line i).flid ≠ 0) →
      (lineFrom vm line (k + 1)).lid = 0 → k + 1 ≤ fuel →
      searchLines conv vm fuel line acc = some [] := by
  induction k with
  | zero =>
    intro line acc fuel hreach hmiss hfuel
    have hf : line.flid ≠ 0 := hreach 0 (Nat.le_refl 0)
    obtain ⟨f, rfl⟩ : ∃ f, fuel = f + 1 := ⟨fuel - 1, by omega⟩
    rw [searchLines_step conv vm f line acc hf]
    have hm : (vm.findLine line.flid).lid = 0 := hmiss
    split_ifs <;> rfl
  | succ k ih =>
    intro line acc fuel hreach hmiss hfuel
    have hf : line.flid ≠ 0 := hreach 0 (Nat.zero_le _)
    obtain ⟨f, rfl⟩ : ∃ f, fuel = f + 1 := ⟨fuel - 1, by omega⟩
    rw [searchLines_step conv vm f line acc hf]
    split_ifs
    · rfl
    · rfl
    · rfl
    · exact ih (vm.findLine line.flid) _ f (fun i hi => hreach (i + 1) (by omega)) hmiss
        (by omega)

/-- A well-formed chain of `n + 1` lines is walked in `n` iterations and yields its points. -/
theorem searchLines_chain (conv : Point → GeomPoint) (vm : VectorMap) (n : Nat) :
    ∀ (line : Line) (acc : List GeomPoint) (fuel : Nat),
      (∀ i, i < n → (lineFrom vm line i).flid ≠ 0) →
      (lineFrom vm line n).flid = 0 →
      (∀ i, i < n → (lineFrom vm line (i + 1)).lid ≠ 0) →
      (∀ i, i ≤ n → pointsOk vm (lineFrom vm line i)) → n ≤ fuel →
      searchLines conv vm fuel line acc = some (acc ++ chainFrom conv vm line n) := by
  induction n with
  | zero =>
    intro line acc fuel _ hlast _ hpts _
    have hp : pointsOk vm line := hpts 0 (Nat.le_refl 0)
    have hl : line.flid = 0 := hlast
    rw [searchLines_last conv vm fuel line acc hl, if_neg (by
      intro h; rcases h with h | h
      · exact hp.1 h
      · exact hp.2 h)]
    rfl
  | succ n ih =>
    intro line acc fuel hreach hlast hpres hpts hfuel
    have hf : line.flid ≠ 0 := hreach 0 (Nat.succ_pos n)
    have hp : pointsOk vm line := hpts 0 (Nat.zero_le _)
    have hl : (vm.findLine line.flid).lid ≠ 0 := hpres 0 (Nat.succ_pos n)
    obtain ⟨f, rfl⟩ : ∃ f, fuel = f + 1 := ⟨fuel - 1, by omega⟩
    rw [searchLines_step conv vm f line acc hf, if_neg hp.1, if_neg hp.2, if_neg hl,
      ih (vm.findLine line.flid) _ f (fun i hi => hreach (i + 1) (by omega)) hlast
        (fun i hi => hpres (i + 1) (by omega)) (fun i hi => hpts (i + 1) (by omega))
        (by omega)]
    simp [chainFrom, bpOf, fpOf]

/-- Every returned vector is empty or is the accumulated points followed by the points of
the lines walked: `n` loop iterations over lines with `flid ≠ 0`, then the line with
`flid = 0`, all of them with resolving points. -/
theorem searchLines_some (conv : Point → GeomPoint) (vm : VectorMap) (fuel : Nat) :
    ∀ (line : Line) (acc pts : List GeomPoint),
      searchLines conv vm fuel line acc = some pts →
      pts = [] ∨ ∃ n, (∀ i, i < n → (lineFrom vm line i).flid ≠ 0) ∧
        (lineFrom vm line n).flid = 0 ∧
        (∀ i, i < n → (lineFrom vm line (i + 1)).lid ≠ 0) ∧
        (∀ i, i ≤ n → pointsOk vm (lineFrom vm line i)) ∧
        pts = acc ++ chainFrom conv vm line n := by
  have hlast : ∀ (fuel : Nat) (line : Line) (acc pts : List GeomPoint), line.flid = 0 →
      searchLines conv vm fuel line acc = some pts →
      pts = [] ∨ ∃ n, (∀ i, i < n → (lineFrom vm line i).flid ≠ 0) ∧
        (lineFrom vm line n).flid = 0 ∧
        (∀ i, i < n → (lineFrom vm line (i + 1)).lid ≠ 0) ∧
        (∀ i, i ≤ n → pointsOk vm (lineFrom vm line i)) ∧
        pts = acc ++ chainFrom conv vm line n := by
    intro fuel line acc pts hf h
    rw [searchLines_last conv vm fuel line acc hf] at h
    split_ifs at h with hbad
    · exact Or.inl (Option.some.inj h).symm
    · refine Or.inr ⟨0, fun i hi => absurd hi (Nat.not_lt_zero i), hf,
        fun i hi => absurd hi (Nat.not_lt_zero i), fun i hi => ?_, (Option.some.inj h).symm⟩
      obtain rfl : i = 0 := by omega
      exact ⟨fun hb => hbad (Or.inl hb), fun hb => hbad (Or.inr hb)⟩
  induction fuel with
  | zero =>
    intro line acc pts h
    by_cases hf : line.flid = 0
    · exact hlast 0 line acc pts hf h
    · rw [searchLines_out_of_fuel conv vm line acc hf] at h
      cases h
  | succ f ih =>
    intro line acc pts h
    by_cases hf : line.flid = 0
    · exact hlast (f + 1) line acc pts hf h
    · rw [searchLines_step conv vm f line acc hf] at h
      split_ifs at h with hb hfp hl
      · exact Or.inl (Option.some.inj h).symm
      · exact Or.inl (Option.some.inj h).symm
      · exact Or.inl (Option.some.inj h).symm
      · rcases ih _ _ _ h with h0 | ⟨n, hreach, hn, hlid, hok, hpts⟩
        · exact Or.inl h0
        · refine Or.inr ⟨n + 1, fun i hi => ?_, hn, fun i hi => ?_, fun i hi => ?_, ?_⟩
          · cases i with
            | zero => exact hf
            | succ i => exact hreach i (by omega)
          · cases i with
            | zero => exact hl
            | succ i => exact hlid i (by omega)
          · cases i with
            | zero => exact ⟨hb, hfp⟩
            | succ i => exact hok i (by omega)
          · rw [hpts]
            simp [chainFrom, bpOf, fpOf]

/-- More fuel does not change a returned vector. -/
theorem searchLines_mono (conv : Point → GeomPoint) (vm : VectorMap) (fuel : Nat) :
    ∀ (line : Line) (acc pts : List GeomPoint) (fuel' : Nat),
      searchLines conv vm fuel line acc = some pts → fuel ≤ fuel' →
      searchLines conv vm fuel' line acc = some pts := by
  induction fuel with
  | zero =>
    intro line acc pts fuel' h _
    by_cases hf : line.flid = 0
    · rw [searchLines_last conv vm 0 line acc hf] at h
      rw [searchLines_last conv vm fuel' line acc hf]
      exact h
    · rw [searchLines_out_of_fuel conv vm line acc hf] at h
      cases h
  | succ f ih =>
    intro line acc pts fuel' h hle
    by_cases hf : line.flid = 0
    · rw [searchLines_last conv vm (f + 1) line acc hf] at h
      rw [searchLines_last conv vm fuel' line acc hf]
      exact h
    · obtain ⟨g, rfl⟩ : ∃ g, fuel' = g + 1 := ⟨fuel' - 1, by omega⟩
      rw [searchLines_step conv vm f line acc hf] at h
      rw [searchLines_step conv vm g line acc hf]
      split_ifs at h ⊢
      · exact h
      · exact h
      · exact h
      · exact ih _ _ _ g h (by omega)

/-- A chain that never reaches `flid = 0` while everything resolves is walked forever. -/
theorem searchLines_diverges (conv : Point → GeomPoint) (vm : VectorMap) (fuel : Nat) :
    ∀ (line : Line) (acc : List GeomPoint),
      (∀ i, (lineFrom vm line i).flid ≠ 0 ∧ pointsOk vm (lineFrom vm line i) ∧
        (lineFrom vm line (i + 1)).lid ≠ 0) →
      searchLines conv vm fuel line acc = none := by
  induction fuel with
  | zero =>
    intro line acc h
    exact searchLines_out_of_fuel conv vm line acc (h 0).1
  | succ f ih =>
    intro line acc h
    have hf : line.flid ≠ 0 := (h 0).1
    have hp : pointsOk vm line := (h 0).2.1
    have hl : (vm.findLine line.flid).lid ≠ 0 := (h 0).2.2
    rw [searchLines_step conv vm f line acc hf, if_neg hp.1, if_neg hp.2, if_neg hl]
    exact ih _ _ (fun i => h (i + 1))

theorem chainFrom_length (conv : Point → GeomPoint) (vm : VectorMap) (n : Nat) :
    ∀ line : Line, (chainFrom conv vm line n).length = 2 * (n + 1) := by
  induction n with
  | zero => intro line; rfl
  | succ n ih =>
    intro line
    simp only [chainFrom, List.length_append, ih, List.length_cons, List.length_nil]
    omega

theorem chainFrom_get (conv : Point → GeomPoint) (vm : VectorMap) (n : Nat) :
    ∀ (line : Line) (i : Nat), i ≤ n →
      (chainFrom conv vm line n)[2 * i]? = some (bpOf conv vm (lineFrom vm line i)) ∧
      (chainFrom conv vm line n)[2 * i + 1]? = some (fpOf conv vm (lineFrom vm line i)) := by
  induction n with
  | zero =>
    intro line i hi
    obtain rfl : i = 0 := by omega
    exact ⟨rfl, rfl⟩
  | succ n ih =>
    intro line i hi
    cases i with
    | zero => exact ⟨rfl, by simp [chainFrom, lineFrom]⟩
    | succ i =>
      have h := ih (vm.findLine line.flid) i (by omega)
      have e1 : 2 * (i + 1) = (2 * i) + 1 + 1 := by omega
      have e2 : 2 * (i + 1) + 1 = (2 * i + 1) + 1 + 1 := by omega
      rw [e2, e1]
      simpa [chainFrom, lineFrom] using h

/-! ## Boundary reconstruction: the claims -/

theorem SearchAreaPoints_unfold (conv : Point → GeomPoint) (vm : VectorMap) (area : Area)
    (fuel : Nat) :
    SearchAreaPoints conv fuel area vm =
      if area.aid = 0 then some []
      else if (vm.findLine area.slid).lid = 0 ∨ (vm.findLine area.slid).blid ≠ 0 then some []
      else searchLines conv vm fuel (vm.findLine area.slid) [] := by
  unfold SearchAreaPoints
  simp

/-- C1: for an area with `aid ≠ 0` whose start line `L0` has `blid = 0`, whose `flid` links
lead through stored lines `L0, …, Ln` with `Ln.flid = 0`, and whose begin and forward point
ids all resolve, `SearchAreaPoints` returns (within `n` loop iterations) exactly `2·(n+1)`
points: `bp(L0), fp(L0), …, bp(Ln), fp(Ln)` in that order. -/
theorem SearchAreaPoints_well_formed_chain (conv : Point → GeomPoint) (vm : VectorMap)
    (area : Area) (n fuel : Nat)
    (haid : area.aid ≠ 0)
    (hblid : (lineAt vm area 0).blid = 0)
    (hpresent : ∀ i, i ≤ n → (lineAt vm area i).lid ≠ 0)
    (hlast : (lineAt vm area n).flid = 0)
    (hpts : ∀ i, i ≤ n → pointsOk vm (lineAt vm area i))
    (hfuel : n ≤ fuel) :
    ∃ pts, SearchAreaPoints conv fuel area vm = some pts ∧ pts.length = 2 * (n + 1) ∧
      ∀ i, i ≤ n →
        pts[2 * i]? = some (bpOf conv vm (lineAt vm area i)) ∧
        pts[2 * i + 1]? = some (fpOf conv vm (lineAt vm area i)) := by
  refine ⟨chainFrom conv vm (vm.findLine area.slid) n, ?_, chainFrom_length conv vm n _,
    fun i hi => chainFrom_get conv vm n _ i hi⟩
  have hl0 : (vm.findLine area.slid).lid ≠ 0 := hpresent 0 (Nat.zero_le n)
  have hb0 : (vm.findLine area.slid).blid = 0 := hblid
  have hreach : ∀ i, i < n → (lineFrom vm (vm.findLine area.slid) i).flid ≠ 0 := by
    intro i hi hz
    have h1 := hpresent (i + 1) (by omega)
    unfold lineAt at h1
    rw [lineFrom_succ, hz, findLine_zero] at h1
    exact h1 rfl
  rw [SearchAreaPoints_unfold, if_neg haid, if_neg (by
    intro h; rcases h with h | h
    · exact hl0 h
    · exact h hb0)]
  rw [searchLines_chain conv vm n _ [] fuel hreach hlast
    (fun i hi => hpresent (i + 1) (by omega)) hpts hfuel]
  rfl

/-- C2: if a begin-point or forward-point id of a line visited by the walk (the final line
included) resolves to a point with `pid = 0`, `SearchAreaPoints` returns the empty vector:
nothing accumulated from earlier lines is returned. -/
theorem SearchAreaPoints_unresolved_point (conv : Point → GeomPoint) (vm : VectorMap)
    (area : Area) (k fuel : Nat)
    (hreach : ∀ i, i < k → (lineAt vm area i).flid ≠ 0)
    (hbad : (vm.findPoint (lineAt vm area k).bpid).pid = 0 ∨
      (vm.findPoint (lineAt vm area k).fpid).pid = 0)
    (hfuel : k < fuel) :
    SearchAreaPoints conv fuel area vm = some [] := by
  rw [SearchAreaPoints_unfold]
  split_ifs
  · rfl
  · rfl
  · refine searchLines_bad_point conv vm k _ [] fuel hreach ?_ hfuel
    intro hok
    rcases hbad with h | h
    · exact hok.1 h
    · exact hok.2 h

/-- C3: if the area's `slid`, or a `flid` reached while following the chain from the start
line, names a line that is not stored (`findByKey` returns a line with `lid = 0`),
`SearchAreaPoints` returns the empty vector. -/
theorem SearchAreaPoints_missing_line (conv : Point → GeomPoint) (vm : VectorMap)
    (area : Area) (k fuel : Nat)
    (hreach : ∀ i, i < k → (lineAt vm area i).flid ≠ 0)
    (hmissing : (lineAt vm area k).lid = 0)
    (hfuel : k ≤ fuel) :
    SearchAreaPoints conv fuel area vm = some [] := by
  rw [SearchAreaPoints_unfold]
  split_ifs with h1 h2
  · rfl
  · rfl
  · cases k with
    | zero => exact absurd (Or.inl hmissing) h2
    | succ k =>
      exact searchLines_missing_line conv vm k _ [] fuel
        (fun i hi => hreach i (by omega)) hmissing hfuel

/-- C4: an area with `aid = 0` yields the empty vector for every map graph, and so does an
area whose start line has `blid ≠ 0`, whatever the rest of the chain is. -/
theorem SearchAreaPoints_invalid_start (conv : Point → GeomPoint) (vm : VectorMap)
    (area : Area) (fuel : Nat)
    (h : area.aid = 0 ∨ (vm.findLine area.slid).blid ≠ 0) :
    SearchAreaPoints conv fuel area vm = some [] := by
  rw [SearchAreaPoints_unfold]
  rcases h with h | h
  · rw [if_pos h]
  · split_ifs with h1 h2
    · rfl
    · rfl
    · exact absurd (Or.inr h) h2

theorem SearchAreaPoints_mono (conv : Point → GeomPoint) (vm : VectorMap) (area : Area)
    (fuel fuel' : Nat) (pts : List GeomPoint)
    (h : SearchAreaPoints conv fuel area vm = some pts) (hle : fuel ≤ fuel') :
    SearchAreaPoints conv fuel' area vm = some pts := by
  rw [SearchAreaPoints_unfold] at h ⊢
  split_ifs at h ⊢
  · exact h
  · exact h
  · exact searchLines_mono conv vm fuel _ _ _ fuel' h hle

theorem foldlM_collect (conv : Point → GeomPoint) (vmap : VectorMap)
    (was : List WayArea) (polys : List (List GeomPoint))
    (h : List.Forall₂
      (fun way_area pts =>
        ∃ fuel, SearchAreaPoints conv fuel (vmap.findArea way_area.aid) vmap = some pts)
      was polys) :
    ∃ fuel0, ∀ fuel, fuel0 ≤ fuel → ∀ out : List (List GeomPoint),
      was.foldlM
        (fun out way_area =>
          (SearchAreaPoints conv fuel (vmap.findArea way_area.aid) vmap).map
            (fun pts => out ++ [pts]))
        out = some (out ++ polys) := by
  induction h with
  | nil => exact ⟨0, fun fuel _ out => by simp⟩
  | @cons wa pts was polys hhead _ ih =>
    obtain ⟨f1, h1⟩ := hhead
    obtain ⟨f0, h0⟩ := ih
    refine ⟨max f1 f0, fun fuel hfuel out => ?_⟩
    have hh := SearchAreaPoints_mono conv vmap _ f1 fuel pts h1 (le_trans (le_max_left _ _) hfuel)
    rw [List.foldlM_cons, hh]
    simp only [Option.map_some', Option.bind_eq_bind, Option.some_bind]
    rw [h0 fuel (le_trans (le_max_right _ _) hfuel)]
    simp

/-- On a map where `SearchAreaPoints` returns for the area of every WayArea record,
`LoadRoadAreasFromVectorMap` returns the output list followed by exactly these vectors, one
per record in enumeration order (an empty vector where the reconstruction fails); with no
WayArea record the output list is returned unchanged. -/
theorem LoadRoadAreasFromVectorMap_of_returns (conv : Point → GeomPoint) (vmap : VectorMap)
    (out polys : List (List GeomPoint))
    (h : List.Forall₂
      (fun way_area pts =>
        ∃ fuel, SearchAreaPoints conv fuel (vmap.findArea way_area.aid) vmap = some pts)
      vmap.wayAreas polys) :
    (∃ fuel0, ∀ fuel, fuel0 ≤ fuel →
      LoadRoadAreasFromVectorMap conv fuel vmap out = some (out ++ polys)) ∧
    polys.length = vmap.wayAreas.length ∧
    (vmap.wayAreas = [] → ∀ fuel, LoadRoadAreasFromVectorMap conv fuel vmap out = some out) := by
  refine ⟨?_, h.length_eq.symm, ?_⟩
  · obtain ⟨f0, h0⟩ := foldlM_collect conv vmap _ polys h
    refine ⟨f0, fun fuel hfuel => ?_⟩
    unfold LoadRoadAreasFromVectorMap VectorMap.findByFilter
    simp only [List.filter_true]
    split_ifs with he
    · have hnil : vmap.wayAreas = [] := List.isEmpty_iff.mp he
      rw [hnil] at h
      cases h
      simp
    · exact h0 fuel hfuel out
  · intro hnil fuel
    unfold LoadRoadAreasFromVectorMap VectorMap.findByFilter
    simp [hnil]

/-- C9 (as amended): a non-empty result of `SearchAreaPoints` contains two points per
traversed line. The traversed lines are `L0, …, Ln`, stored lines with resolving points,
where `n` is the first index whose line has `flid = 0`; the result is
`bp(L0), fp(L0), …, bp(Ln), fp(Ln)`, so it has `2·(n+1)` points: an even number, at
least 2, and exactly 2 when the start line has `flid = 0`. -/
theorem SearchAreaPoints_nonempty_even (conv : Point → GeomPoint) (vm : VectorMap)
    (area : Area) (fuel : Nat) (pts : List GeomPoint)
    (h : SearchAreaPoints conv fuel area vm = some pts) (hne : pts ≠ []) :
    (∃ n, (∀ i, i < n → (lineAt vm area i).flid ≠ 0) ∧ (lineAt vm area n).flid = 0 ∧
      (∀ i, i ≤ n → (lineAt vm area i).lid ≠ 0 ∧ pointsOk vm (lineAt vm area i)) ∧
      pts.length = 2 * (n + 1) ∧
      ∀ i, i ≤ n →
        pts[2 * i]? = some (bpOf conv vm (lineAt vm area i)) ∧
        pts[2 * i + 1]? = some (fpOf conv vm (lineAt vm area i))) ∧
    pts.length % 2 = 0 ∧ 2 ≤ pts.length ∧
    ((lineAt vm area 0).flid = 0 → pts.length = 2) := by
  rw [SearchAreaPoints_unfold] at h
  split_ifs at h with ha hs
  · exact absurd (Option.some.inj h).symm hne
  · exact absurd (Option.some.inj h).symm hne
  · rcases searchLines_some conv vm fuel _ _ _ h with h0 | ⟨n, hreach, hn, hlid, hok, hpts⟩
    · exact absurd h0 hne
    · rw [List.nil_append] at hpts
      have hlen : pts.length = 2 * (n + 1) := by rw [hpts]; exact chainFrom_length conv vm n _
      refine ⟨⟨n, hreach, hn, fun i hi => ⟨?_, hok i hi⟩, hlen, fun i hi => ?_⟩, by omega,
        by omega, fun h0 => ?_⟩
      · cases i with
        | zero => exact fun hz => hs (Or.inl hz)
        | succ i => exact hlid i (by omega)
      · rw [hpts]
        exact chainFrom_get conv vm n _ i hi
      · cases n with
        | zero => exact hlen
        | succ n => exact absurd h0 (hreach 0 (Nat.succ_pos n))

/-- C9 (as stated) fails: on a map whose only line has `blid = 0` and `flid = 0` the
result is non-empty and has 2 points, fewer than 4. -/
theorem SearchAreaPoints_single_line_two_points :
    SearchAreaPoints keepCoords 0 ⟨1, 1⟩ singleLineMap = some [⟨0, 0, 0⟩, ⟨1, 0, 0⟩] ∧
    ¬ (∀ (conv : Point → GeomPoint) (vm : VectorMap) (area : Area) (fuel : Nat)
        (pts : List GeomPoint), SearchAreaPoints conv fuel area vm = some pts → pts ≠ [] →
        pts.length % 2 = 0 ∧ 4 ≤ pts.length) := by
  have h0 : SearchAreaPoints keepCoords 0 ⟨1, 1⟩ singleLineMap
      = some [⟨0, 0, 0⟩, ⟨1, 0, 0⟩] := by decide
  refine ⟨h0, fun hall => ?_⟩
  have h := (hall keepCoords singleLineMap ⟨1, 1⟩ 0 _ h0 (by simp)).2
  simp at h

theorem ringMap_lineFrom (i : Nat) :
    lineFrom ringMap (ringMap.findLine 1) i = ⟨1, 1, 2, 0, 2⟩ ∨
    lineFrom ringMap (ringMap.findLine 1) i = ⟨2, 2, 3, 1, 3⟩ ∨
    lineFrom ringMap (ringMap.findLine 1) i = ⟨3, 3, 4, 2, 4⟩ ∨
    lineFrom ringMap (ringMap.findLine 1) i = ⟨4, 4, 1, 3, 1⟩ := by
  induction i with
  | zero => exact Or.inl (by decide)
  | succ i ih =>
    rw [lineFrom_succ]
    rcases ih with h | h | h | h <;> rw [h]
    · exact Or.inr (Or.inl (by decide))
    · exact Or.inr (Or.inr (Or.inl (by decide)))
    · exact Or.inr (Or.inr (Or.inr (by decide)))
    · exact Or.inl (by decide)

/-- On the ring every line has `flid ≠ 0`, resolving points and a stored successor. -/
theorem ringMap_chain_resolves (i : Nat) :
    (lineFrom ringMap (ringMap.findLine 1) i).flid ≠ 0 ∧
    pointsOk ringMap (lineFrom ringMap (ringMap.findLine 1) i) ∧
    (lineFrom ringMap (ringMap.findLine 1) (i + 1)).lid ≠ 0 := by
  have hs := ringMap_lineFrom (i + 1)
  rcases ringMap_lineFrom i with h | h | h | h <;> rw [h] <;>
    refine ⟨by decide, by decide, ?_⟩ <;>
    rcases hs with h' | h' | h' | h' <;> rw [h'] <;> decide

/-- C10 fails on the code: on the ring `1 → 2 → 3 → 4 → 1 → …`, where every line and point
resolves and no `flid` is `0`, the walk of `SearchAreaPoints` does not finish within any
number of loop iterations, so it returns neither points nor the empty vector. -/
theorem SearchAreaPoints_ring_never_returns :
    ∀ (conv : Point → GeomPoint) (fuel : Nat),
      SearchAreaPoints conv fuel ⟨1, 1⟩ ringMap = none := by
  intro conv fuel
  rw [SearchAreaPoints_unfold, if_neg (by decide), if_neg (by decide)]
  exact searchLines_diverges conv ringMap fuel _ [] ringMap_chain_resolves

/-- C5 fails on the code: `ringMap` has one WayArea record, whose area starts the ring
`1 → 2 → 3 → 4 → 1 → …`; the call of `SearchAreaPoints` for it does not finish within any
number of loop iterations, so `LoadRoadAreasFromVectorMap` never returns and no polygon is
delivered for the record, whatever the output list held. -/
theorem LoadRoadAreasFromVectorMap_ring_never_returns :
    ringMap.findByFilter (fun _ => true) = [⟨1, 1⟩] ∧ ringMap.findArea 1 = ⟨1, 1⟩ ∧
    ∀ (conv : Point → GeomPoint) (fuel : Nat) (out : List (List GeomPoint)),
      LoadRoadAreasFromVectorMap conv fuel ringMap out = none := by
  have hwa : ringMap.findByFilter (fun _ => true) = [⟨1, 1⟩] := by decide
  have harea : ringMap.findArea 1 = ⟨1, 1⟩ := by decide
  refine ⟨hwa, harea, fun conv fuel out => ?_⟩
  have hwalk : SearchAreaPoints conv fuel ⟨1, 1⟩ ringMap = none := by
    rw [SearchAreaPoints_unfold, if_neg (by decide), if_neg (by decide)]
    exact searchLines_diverges conv ringMap fuel _ [] ringMap_chain_resolves
  unfold LoadRoadAreasFromVectorMap
  simp only [hwa, List.isEmpty_cons, Bool.false_eq_true, if_false, List.foldlM_cons, harea,
    hwalk, Option.map_none', Option.bind_eq_bind, Option.none_bind]

/-! ## Rasterization: lemmas -/

theorem setLayer_setLayer (g : GridMap) (layer : String) (a b : Matrix) :
    (g.setLayer layer a).setLayer layer b = g.setLayer layer b := by
  unfold GridMap.setLayer
  congr 1
  funext n
  by_cases h : n = layer <;> simp [h]

/-- The first two statements of both fill functions amount to one layer assignment. -/
theorem reset_layer (g : GridMap) (layer : String) (v : ℚ) :
    (if !g.exists layer then g.add layer else g).setConstant layer v =
      g.setLayer layer (fun _ _ => some v) := by
  unfold GridMap.setConstant GridMap.add
  split_ifs
  · exact setLayer_setLayer g layer _ _
  · rfl

theorem TransformPoint_identity (p : GeomPoint) : TransformPoint p Transform.identity = p := by
  cases p
  simp [TransformPoint, Transform.identity]

theorem lanePolygon_foldl (g : GridMap) (tf : Transform) (pts : List GeomPoint) :
    ∀ st : List CvPoint × ℚ,
      (pts.foldl
        (fun (st : List CvPoint × ℚ) p =>
          (st.1 ++ [(⟨truncate (cv_x g (TransformPoint p tf)),
              truncate (cv_y g (TransformPoint p tf))⟩ : CvPoint)],
            (TransformPoint p tf).z))
        st).1 = st.1 ++ pts.map (cellOf g tf) := by
  induction pts with
  | nil => intro st; simp
  | cons p pts ih =>
    intro st
    rw [List.foldl_cons, ih]
    simp [cellOf]

/-- The vertices handed to the fill are the cells of the polygon's points, in order. -/
theorem lanePolygon_fst (g : GridMap) (tf : Transform) (pts : List GeomPoint) :
    (lanePolygon g tf pts).1 = pts.map (cellOf g tf) := by
  unfold lanePolygon
  rw [lanePolygon_foldl]
  rfl

/-- The `height` left by the inner loop is the `z` of the last transformed point. -/
theorem lanePolygon_snd (g : GridMap) (tf : Transform) (pts : List GeomPoint)
    (hne : pts ≠ []) :
    (lanePolygon g tf pts).2 = (TransformPoint (pts.getLast hne) tf).z := by
  have hsplit : pts = pts.dropLast ++ [pts.getLast hne] :=
    (List.dropLast_append_getLast hne).symm
  unfold lanePolygon
  conv_lhs => rw [hsplit]
  rw [List.foldl_append]
  rfl

theorem lanePolygon_setLayer (g : GridMap) (layer : String) (data : Matrix) (tf : Transform)
    (pts : List GeomPoint) :
    lanePolygon (g.setLayer layer data) tf pts = lanePolygon g tf pts := rfl

/-- A pixel after a sequence of fills: the colour of the last polygon painting it. -/
theorem foldl_fill_apply {α : Type} (ops : RasterOps) (size : Nat × Nat)
    (cells : List GeomPoint → List CvPoint) (colour : List GeomPoint → α)
    (areas : List (List GeomPoint)) (r c : Nat) :
    ∀ img : Image α,
      (areas.foldl (fun img pts => fillConvexPoly ops size img (cells pts) (colour pts)) img) r c
        = areas.foldl (fun v pts => if ops.covers size (cells pts) r c then colour pts else v)
            (img r c) := by
  induction areas with
  | nil => intro img; rfl
  | cons pts areas ih =>
    intro img
    rw [List.foldl_cons, ih, List.foldl_cons]
    rfl

theorem foldl_uncovered {α : Type} (cov : List GeomPoint → Bool) (colour : List GeomPoint → α)
    (areas : List (List GeomPoint)) (h : ∀ pts ∈ areas, cov pts = false) (v : α) :
    areas.foldl (fun v pts => if cov pts then colour pts else v) v = v := by
  induction areas with
  | nil => rfl
  | cons pts areas ih =>
    rw [List.foldl_cons, h pts (List.mem_cons_self _ _)]
    exact ih (fun q hq => h q (List.mem_cons_of_mem _ hq))

theorem foldl_last_cover {α : Type} (cov : List GeomPoint → Bool) (colour : List GeomPoint → α)
    (pre post : List (List GeomPoint)) (pts : List GeomPoint) (hcov : cov pts = true)
    (hpost : ∀ q ∈ post, cov q = false) (v : α) :
    (pre ++ pts :: post).foldl (fun v pts => if cov pts then colour pts else v) v
      = colour pts := by
  rw [List.foldl_append, List.foldl_cons, hcov, if_pos rfl]
  exact foldl_uncovered cov colour post hpost _

/-- The layer written by `FillPolygonLaneAreas`, cell by cell. -/
theorem FillPolygonLaneAreas_cell (ops : RasterOps) (tf : Transform) (g : GridMap)
    (areas : List (List GeomPoint)) (layer : String) (bg lo hi : Int) (r c : Nat)
    (hr : r < g.size.1) (hc : c < g.size.2) :
    cellValue (FillPolygonLaneAreas ops tf g areas layer bg lo hi) layer r c =
      some (areas.foldl
        (fun v pts =>
          if ops.covers g.size (lanePolygon g tf pts).1 r c then
            ops.toFloat (lanePolygon g tf pts).2
          else v)
        (ops.toFloat bg)) := by
  unfold FillPolygonLaneAreas
  simp only [reset_layer]
  unfold addLayerFromImageWithoutNormValues cellValue GridMap.add
  simp only [GridMap.setLayer, if_true]
  rw [if_pos ⟨hr, hc⟩]
  congr 1
  exact foldl_fill_apply ops g.size (fun pts => (lanePolygon g tf pts).1)
    (fun pts => ops.toFloat (lanePolygon g tf pts).2) areas r c _

/-! ## Rasterization: the claims -/

/-- C6: with the identity transform and `mapPosition = (0, 0)`, a point at the world-frame
origin has row coordinate `cv_y = gridLength.x / 2 / resolution` and column coordinate
`cv_x = gridLength.y / 2 / resolution`; the cell handed to the fill by both fill functions
is the `cv::Point` made of these two values. -/
theorem cell_of_world_origin (g : GridMap) (z : ℚ) (hpos : g.position = (0, 0))
    (hres : 0 < g.resolution) :
    cv_y g (TransformPoint ⟨0, 0, z⟩ Transform.identity) = g.length.1 / 2 / g.resolution ∧
    cv_x g (TransformPoint ⟨0, 0, z⟩ Transform.identity) = g.length.2 / 2 / g.resolution ∧
    cellOf g Transform.identity ⟨0, 0, z⟩ =
      ⟨truncate (g.length.2 / 2 / g.resolution), truncate (g.length.1 / 2 / g.resolution)⟩ ∧
    (lanePolygon g Transform.identity [⟨0, 0, z⟩]).1 =
      [⟨truncate (g.length.2 / 2 / g.resolution), truncate (g.length.1 / 2 / g.resolution)⟩] := by
  have hne : g.resolution ≠ 0 := ne_of_gt hres
  have hy : cv_y g (TransformPoint ⟨0, 0, z⟩ Transform.identity)
      = g.length.1 / 2 / g.resolution := by
    rw [TransformPoint_identity]
    simp only [cv_y, origin_x_offset, hpos]
    field_simp
    ring
  have hx : cv_x g (TransformPoint ⟨0, 0, z⟩ Transform.identity)
      = g.length.2 / 2 / g.resolution := by
    rw [TransformPoint_identity]
    simp only [cv_x, origin_y_offset, hpos]
    field_simp
    ring
  have hcell : cellOf g Transform.identity ⟨0, 0, z⟩ =
      ⟨truncate (g.length.2 / 2 / g.resolution), truncate (g.length.1 / 2 / g.resolution)⟩ := by
    unfold cellOf
    simp only [hx, hy]
  refine ⟨hy, hx, hcell, ?_⟩
  rw [lanePolygon_fst, List.map_cons, List.map_nil, hcell]

/-- C7: in `FillPolygonLaneAreas` the value passed to the convex fill of a non-empty polygon
is the `z` of its last transformed point, whatever the other polygons are: a cell painted by
that polygon's fill and by no later one holds this value as stored in a `float`, and a cell
painted by no polygon keeps the value the layer was reset to, the background value as stored
in a `float`. -/
theorem FillPolygonLaneAreas_fill_value (ops : RasterOps) (tf : Transform) (g : GridMap)
    (areas : List (List GeomPoint)) (layer : String) (bg lo hi : Int) (r c : Nat)
    (hr : r < g.size.1) (hc : c < g.size.2) :
    (∀ (pts : List GeomPoint) (hne : pts ≠ []),
      (lanePolygon g tf pts).2 = (TransformPoint (pts.getLast hne) tf).z) ∧
    ((∀ pts ∈ areas, ops.covers g.size (lanePolygon g tf pts).1 r c = false) →
      cellValue (FillPolygonLaneAreas ops tf g areas layer bg lo hi) layer r c
        = some (ops.toFloat bg) ∧
      cellValue (FillPolygonLaneAreas ops tf g areas layer bg lo hi) layer r c
        = cellValue
            ((if !g.exists layer then g.add layer else g).setConstant layer (ops.toFloat bg))
            layer r c) ∧
    (∀ (pre post : List (List GeomPoint)) (pts : List GeomPoint) (hne : pts ≠ []),
      areas = pre ++ pts :: post →
      ops.covers g.size (lanePolygon g tf pts).1 r c = true →
      (∀ q ∈ post, ops.covers g.size (lanePolygon g tf q).1 r c = false) →
      cellValue (FillPolygonLaneAreas ops tf g areas layer bg lo hi) layer r c
        = some (ops.toFloat (TransformPoint (pts.getLast hne) tf).z)) := by
  refine ⟨fun pts hne => lanePolygon_snd g tf pts hne, fun hnone => ?_,
    fun pre post pts hne hsplit hcov hpost => ?_⟩
  · have hcell : cellValue (FillPolygonLaneAreas ops tf g areas layer bg lo hi) layer r c
        = some (ops.toFloat bg) := by
      rw [FillPolygonLaneAreas_cell ops tf g areas layer bg lo hi r c hr hc]
      congr 1
      exact foldl_uncovered (fun pts => ops.covers g.size (lanePolygon g tf pts).1 r c)
        (fun pts => ops.toFloat (lanePolygon g tf pts).2) areas hnone _
    refine ⟨hcell, ?_⟩
    rw [hcell, reset_layer]
    simp [cellValue, GridMap.setLayer]
  · rw [FillPolygonLaneAreas_cell ops tf g areas layer bg lo hi r c hr hc, hsplit,
      ← lanePolygon_snd g tf pts hne]
    congr 1
    exact foldl_last_cover (fun pts => ops.covers g.size (lanePolygon g tf pts).1 r c)
      (fun pts => ops.toFloat (lanePolygon g tf pts).2) pre post pts hcov hpost _

/-- C8: for a fixed transform, running `FillPolygonAreas` again with the same arguments on
its own result gives the same grid map (so the same layer), and the result does not depend
on what the layer held before the call. -/
theorem FillPolygonAreas_idempotent (ops : RasterOps) (tf : Transform) (g : GridMap)
    (areas : List (List GeomPoint)) (layer : String) (bg lo fill hi : Int) :
    FillPolygonAreas ops tf (FillPolygonAreas ops tf g areas layer bg lo fill hi) areas layer
        bg lo fill hi
      = FillPolygonAreas ops tf g areas layer bg lo fill hi ∧
    ∀ data : Matrix,
      FillPolygonAreas ops tf (g.setLayer layer data) areas layer bg lo fill hi
        = FillPolygonAreas ops tf g areas layer bg lo fill hi := by
  have key : ∀ (g0 : GridMap) (data : Matrix),
      FillPolygonAreas ops tf (g0.setLayer layer data) areas layer bg lo fill hi
        = FillPolygonAreas ops tf g0 areas layer bg lo fill hi := by
    intro g0 data
    unfold FillPolygonAreas
    simp only [reset_layer, setLayer_setLayer]
  refine ⟨?_, key g⟩
  have hout : FillPolygonAreas ops tf g areas layer bg lo fill hi
      = g.setLayer layer
          ((FillPolygonAreas ops tf g areas layer bg lo fill hi).layers layer).get! := by
    unfold FillPolygonAreas addLayerFromImage
    simp only [reset_layer, setLayer_setLayer]
    simp [GridMap.setLayer]
  have h2 := key g ((FillPolygonAreas ops tf g areas layer bg lo fill hi).layers layer).get!
  rw [← hout] at h2
  exact h2

/-! ## The claims at concrete inputs -/

theorem SearchAreaPoints_well_formed_chain_witness :
    chainArea.aid ≠ 0 ∧ (lineAt chainMap chainArea 0).blid = 0 ∧
    (∀ i, i ≤ 2 → (lineAt chainMap chainArea i).lid ≠ 0) ∧
    (lineAt chainMap chainArea 2).flid = 0 ∧
    (∀ i, i ≤ 2 → pointsOk chainMap (lineAt chainMap chainArea i)) ∧
    SearchAreaPoints keepCoords 2 chainArea chainMap =
      some [⟨0, 0, 0⟩, ⟨1, 0, 0⟩, ⟨1, 0, 0⟩, ⟨1, 1, 0⟩, ⟨1, 1, 0⟩, ⟨0, 1, 0⟩] ∧
    ∃ pts, SearchAreaPoints keepCoords 2 chainArea chainMap = some pts ∧
      pts.length = 2 * (2 + 1) ∧
      ∀ i, i ≤ 2 →
        pts[2 * i]? = some (bpOf keepCoords chainMap (lineAt chainMap chainArea i)) ∧
        pts[2 * i + 1]? = some (fpOf keepCoords chainMap (lineAt chainMap chainArea i)) :=
  ⟨by decide, by decide, by decide, by decide, by decide, by decide,
    SearchAreaPoints_well_formed_chain keepCoords chainMap chainArea 2 2 (by decide)
      (by decide) (by decide) (by decide) (by decide) (by decide)⟩

theorem SearchAreaPoints_unresolved_point_witness :
    (∀ i, i < 1 → (lineAt brokenPointMap ⟨1, 1⟩ i).flid ≠ 0) ∧
    (brokenPointMap.findPoint (lineAt brokenPointMap ⟨1, 1⟩ 1).fpid).pid = 0 ∧
    pointsOk brokenPointMap (lineAt brokenPointMap ⟨1, 1⟩ 0) ∧
    SearchAreaPoints keepCoords 2 ⟨1, 1⟩ brokenPointMap = some [] :=
  ⟨by decide, by decide, by decide,
    SearchAreaPoints_unresolved_point keepCoords brokenPointMap ⟨1, 1⟩ 1 2 (by decide)
      (Or.inr (by decide)) (by decide)⟩

theorem SearchAreaPoints_missing_line_witness :
    (∀ i, i < 2 → (lineAt brokenLineMap ⟨1, 1⟩ i).flid ≠ 0) ∧
    (lineAt brokenLineMap ⟨1, 1⟩ 1).flid = 5 ∧
    (lineAt brokenLineMap ⟨1, 1⟩ 2).lid = 0 ∧
    SearchAreaPoints keepCoords 2 ⟨1, 1⟩ brokenLineMap = some [] :=
  ⟨by decide, by decide, by decide,
    SearchAreaPoints_missing_line keepCoords brokenLineMap ⟨1, 1⟩ 2 2 (by decide)
      (by decide) (by decide)⟩

theorem SearchAreaPoints_invalid_start_witness :
    SearchAreaPoints keepCoords 2 ⟨0, 1⟩ chainMap = some [] ∧
    (chainMap.findLine 2).blid ≠ 0 ∧
    SearchAreaPoints keepCoords 2 ⟨2, 2⟩ chainMap = some [] :=
  ⟨SearchAreaPoints_invalid_start keepCoords chainMap ⟨0, 1⟩ 2 (Or.inl (by decide)),
    by decide,
    SearchAreaPoints_invalid_start keepCoords chainMap ⟨2, 2⟩ 2 (Or.inr (by decide))⟩

theorem LoadRoadAreasFromVectorMap_chainMap :
    (∃ fuel0, ∀ fuel, fuel0 ≤ fuel →
      LoadRoadAreasFromVectorMap keepCoords fuel chainMap [] =
        some ([] ++
          [[⟨0, 0, 0⟩, ⟨1, 0, 0⟩, ⟨1, 0, 0⟩, ⟨1, 1, 0⟩, ⟨1, 1, 0⟩, ⟨0, 1, 0⟩], [], [],
            [⟨0, 0, 0⟩, ⟨1, 0, 0⟩, ⟨1, 0, 0⟩, ⟨1, 1, 0⟩, ⟨1, 1, 0⟩, ⟨0, 1, 0⟩]])) ∧
    LoadRoadAreasFromVectorMap keepCoords 2 chainMap [] =
      some [[⟨0, 0, 0⟩, ⟨1, 0, 0⟩, ⟨1, 0, 0⟩, ⟨1, 1, 0⟩, ⟨1, 1, 0⟩, ⟨0, 1, 0⟩], [], [],
        [⟨0, 0, 0⟩, ⟨1, 0, 0⟩, ⟨1, 0, 0⟩, ⟨1, 1, 0⟩, ⟨1, 1, 0⟩, ⟨0, 1, 0⟩]] :=
  ⟨(LoadRoadAreasFromVectorMap_of_returns keepCoords chainMap []
      [[⟨0, 0, 0⟩, ⟨1, 0, 0⟩, ⟨1, 0, 0⟩, ⟨1, 1, 0⟩, ⟨1, 1, 0⟩, ⟨0, 1, 0⟩], [], [],
        [⟨0, 0, 0⟩, ⟨1, 0, 0⟩, ⟨1, 0, 0⟩, ⟨1, 1, 0⟩, ⟨1, 1, 0⟩, ⟨0, 1, 0⟩]]
      (List.Forall₂.cons ⟨2, by decide⟩ (List.Forall₂.cons ⟨0, by decide⟩
        (List.Forall₂.cons ⟨0, by decide⟩ (List.Forall₂.cons ⟨2, by decide⟩
          List.Forall₂.nil))))).1,
    by decide⟩

theorem SearchAreaPoints_nonempty_even_witness :
    SearchAreaPoints keepCoords 2 chainArea chainMap =
      some [⟨0, 0, 0⟩, ⟨1, 0, 0⟩, ⟨1, 0, 0⟩, ⟨1, 1, 0⟩, ⟨1, 1, 0⟩, ⟨0, 1, 0⟩] ∧
    (∃ n, (∀ i, i < n → (lineAt chainMap chainArea i).flid ≠ 0) ∧
      (lineAt chainMap chainArea n).flid = 0 ∧
      (∀ i, i ≤ n →
        (lineAt chainMap chainArea i).lid ≠ 0 ∧ pointsOk chainMap (lineAt chainMap chainArea i)) ∧
      [(⟨0, 0, 0⟩ : GeomPoint), ⟨1, 0, 0⟩, ⟨1, 0, 0⟩, ⟨1, 1, 0⟩, ⟨1, 1, 0⟩, ⟨0, 1, 0⟩].length
        = 2 * (n + 1) ∧
      ∀ i, i ≤ n →
        [(⟨0, 0, 0⟩ : GeomPoint), ⟨1, 0, 0⟩, ⟨1, 0, 0⟩, ⟨1, 1, 0⟩, ⟨1, 1, 0⟩, ⟨0, 1, 0⟩][2 * i]?
          = some (bpOf keepCoords chainMap (lineAt chainMap chainArea i)) ∧
        [(⟨0, 0, 0⟩ : GeomPoint), ⟨1, 0, 0⟩, ⟨1, 0, 0⟩, ⟨1, 1, 0⟩, ⟨1, 1, 0⟩,
            ⟨0, 1, 0⟩][2 * i + 1]?
          = some (fpOf keepCoords chainMap (lineAt chainMap chainArea i))) ∧
    [(⟨0, 0, 0⟩ : GeomPoint), ⟨1, 0, 0⟩, ⟨1, 0, 0⟩, ⟨1, 1, 0⟩, ⟨1, 1, 0⟩, ⟨0, 1, 0⟩].length % 2
      = 0 ∧
    2 ≤ [(⟨0, 0, 0⟩ : GeomPoint), ⟨1, 0, 0⟩, ⟨1, 0, 0⟩, ⟨1, 1, 0⟩, ⟨1, 1, 0⟩, ⟨0, 1, 0⟩].length ∧
    ((lineAt chainMap chainArea 0).flid = 0 →
      [(⟨0, 0, 0⟩ : GeomPoint), ⟨1, 0, 0⟩, ⟨1, 0, 0⟩, ⟨1, 1, 0⟩, ⟨1, 1, 0⟩, ⟨0, 1, 0⟩].length
        = 2) :=
  ⟨by decide,
    SearchAreaPoints_nonempty_even keepCoords chainMap chainArea 2
      [⟨0, 0, 0⟩, ⟨1, 0, 0⟩, ⟨1, 0, 0⟩, ⟨1, 1, 0⟩, ⟨1, 1, 0⟩, ⟨0, 1, 0⟩] (by decide)
      (by decide)⟩

theorem cell_of_world_origin_witness :
    demoGrid.position = (0, 0) ∧ 0 < demoGrid.resolution ∧
    cv_y demoGrid (TransformPoint ⟨0, 0, 0⟩ Transform.identity)
      = demoGrid.length.1 / 2 / demoGrid.resolution ∧
    cv_x demoGrid (TransformPoint ⟨0, 0, 0⟩ Transform.identity)
      = demoGrid.length.2 / 2 / demoGrid.resolution ∧
    cellOf demoGrid Transform.identity ⟨0, 0, 0⟩ =
      ⟨truncate (demoGrid.length.2 / 2 / demoGrid.resolution),
        truncate (demoGrid.length.1 / 2 / demoGrid.resolution)⟩ ∧
    (lanePolygon demoGrid Transform.identity [⟨0, 0, 0⟩]).1 =
      [⟨truncate (demoGrid.length.2 / 2 / demoGrid.resolution),
        truncate (demoGrid.length.1 / 2 / demoGrid.resolution)⟩] :=
  ⟨rfl, by norm_num [demoGrid],
    cell_of_world_origin demoGrid 0 rfl (by norm_num [demoGrid])⟩

theorem demoTriangle_cells :
    (lanePolygon demoGrid Transform.identity demoTriangle).1 = [⟨1, 1⟩, ⟨3, 1⟩, ⟨3, 3⟩] := by
  rw [lanePolygon_fst]
  simp only [demoTriangle, List.map_cons, List.map_nil, cellOf, TransformPoint_identity]
  norm_num [cv_x, cv_y, origin_x_offset, origin_y_offset, demoGrid, truncate]

theorem roundToEighth_demo : roundToEighth (18 / 5) = 7 / 2 ∧ roundToEighth 0 = 0 := by
  have h : Int.fdiv 144 5 = 28 := by decide
  constructor
  · norm_num [roundToEighth, h]
  · norm_num [roundToEighth]

theorem FillPolygonLaneAreas_fill_value_witness :
    1 < demoGrid.size.1 ∧ 1 < demoGrid.size.2 ∧
    demoOps.covers demoGrid.size (lanePolygon demoGrid Transform.identity demoTriangle).1 1 1
      = true ∧
    demoOps.covers demoGrid.size (lanePolygon demoGrid Transform.identity demoTriangle).1 0 0
      = false ∧
    (lanePolygon demoGrid Transform.identity demoTriangle).2 = 18 / 5 ∧
    cellValue
      (FillPolygonLaneAreas demoOps Transform.identity demoGrid [demoTriangle] "height" 0 0 10)
      "height" 1 1 = some (7 / 2) ∧
    cellValue
      (FillPolygonLaneAreas demoOps Transform.identity demoGrid [demoTriangle] "height" 0 0 10)
      "height" 0 0 = some 0 := by
  have hin : demoOps.covers demoGrid.size
      (lanePolygon demoGrid Transform.identity demoTriangle).1 1 1 = true := by
    rw [demoTriangle_cells]; decide
  have hout : demoOps.covers demoGrid.size
      (lanePolygon demoGrid Transform.identity demoTriangle).1 0 0 = false := by
    rw [demoTriangle_cells]; decide
  have hne : demoTriangle ≠ [] := by simp [demoTriangle]
  have hz := (FillPolygonLaneAreas_fill_value demoOps Transform.identity demoGrid
    [demoTriangle] "height" 0 0 10 1 1 (by decide) (by decide)).1 demoTriangle hne
  have h1 := (FillPolygonLaneAreas_fill_value demoOps Transform.identity demoGrid
    [demoTriangle] "height" 0 0 10 1 1 (by decide) (by decide)).2.2 [] [] demoTriangle hne rfl
    hin (by simp)
  have h0 := ((FillPolygonLaneAreas_fill_value demoOps Transform.identity demoGrid
    [demoTriangle] "height" 0 0 10 0 0 (by decide) (by decide)).2.1 (by simpa using hout)).1
  have hlast : (TransformPoint (demoTriangle.getLast hne) Transform.identity).z = 18 / 5 := by
    simp [TransformPoint_identity, demoTriangle]
  refine ⟨by decide, by decide, hin, hout, ?_, ?_, ?_⟩
  · rw [hz, hlast]
  · rw [h1, hlast]
    exact congrArg some roundToEighth_demo.1
  · rw [h0]
    exact congrArg some (by simpa using roundToEighth_demo.2)

end object_map
